import Mathlib

/-!
Shallow embedding of the book-item tree, flattening iterator, outline parser,
and `MDBook` operations of `src/book/mod.rs` (planet-s/mdBook).
-/

/-- Model of Rust `PathBuf`: an absolute flag plus an ordered list of
components.  `PathBuf::new()` is the relative empty path. -/
structure PathBuf where
  absolute : Bool
  components : List String
deriving DecidableEq, Repr

/-- `PathBuf::new()`. -/
def PathBuf.new : PathBuf := ⟨false, []⟩

/-- Rust `Path::is_absolute`. -/
def PathBuf.is_absolute (p : PathBuf) : Bool := p.absolute

/-- Rust `Path::join`: joining an absolute path replaces the receiver,
joining a relative path appends its components. -/
def PathBuf.join (p q : PathBuf) : PathBuf :=
  if q.absolute then q else ⟨p.absolute, p.components ++ q.components⟩

/-- A relative single-component path, as in `PathBuf::from("book")`. -/
def PathBuf.from1 (s : String) : PathBuf := ⟨false, [s]⟩

/-- The `BookItem` tagged union of `src/book/bookitem.rs` as re-exported and
matched in `src/book/mod.rs` (`BookItem::Chapter(String, Chapter)`,
`BookItem::Affix(Chapter)`, `BookItem::Spacer`).  The `Chapter` payload
struct `{ name, path, sub_items }` is inlined into the variants. -/
inductive BookItem where
  | Chapter (sec : String) (name : String) (path : PathBuf) (sub_items : List BookItem)
  | Affix (name : String) (path : PathBuf) (sub_items : List BookItem)
  | Spacer

mutual
/-- Number of nodes in the subtree rooted at one item. -/
def itemSize : BookItem → Nat
  | .Chapter _ _ _ sub => 1 + listSize sub
  | .Affix _ _ sub => 1 + listSize sub
  | .Spacer => 1

/-- Total number of nodes in a forest. -/
def listSize : List BookItem → Nat
  | [] => 0
  | i :: rest => itemSize i + listSize rest
end

example : itemSize .Spacer = 1 := by decide

example : listSize [.Chapter "" "a" PathBuf.new [.Spacer], .Spacer] = 3 := by decide

/-- Section label built from a parent label and a 1-based sibling position:
`"n"` at depth 0 (empty parent label), `parent ++ "." ++ "n"` below. -/
def mkLabel (parent : String) (n : Nat) : String :=
  if parent = "" then toString n else parent ++ "." ++ toString n

/-- Modelled from the spec, section 4.3 (the iterator's numbering algorithm;
`src/book/bookitem.rs` is not in the sources): recursive description of the
labelled depth-first flattening of a forest.  `numbered` is the inherited
"assign numeric labels" flag (false inside an Affix subtree), `parent` the
enclosing chapter label, `counter` the number of numbered siblings already
emitted at this level. -/
def flattenList : Bool → String → Nat → List BookItem → List (String × BookItem)
  | _, _, _, [] => []
  | numbered, parent, counter, .Chapter sec name path sub :: rest =>
    if numbered then
      (mkLabel parent (counter + 1), .Chapter sec name path sub)
        :: (flattenList true (mkLabel parent (counter + 1)) 0 sub
            ++ flattenList true parent (counter + 1) rest)
    else
      ("", .Chapter sec name path sub)
        :: (flattenList false "" 0 sub ++ flattenList false parent counter rest)
  | numbered, parent, counter, .Affix name path sub :: rest =>
    ("", .Affix name path sub)
      :: (flattenList false "" 0 sub ++ flattenList numbered parent counter rest)
  | numbered, parent, counter, .Spacer :: rest =>
    ("", .Spacer) :: flattenList numbered parent counter rest
termination_by _ _ _ items => listSize items
decreasing_by all_goals first
  | (simp [listSize, itemSize]; omega)
  | simp [listSize, itemSize]

/-- Pre-order (depth-first, parent before children, children before next
sibling) sequence of the nodes of a forest. -/
def preorderList : List BookItem → List BookItem
  | [] => []
  | .Chapter sec name path sub :: rest =>
    .Chapter sec name path sub :: (preorderList sub ++ preorderList rest)
  | .Affix name path sub :: rest =>
    .Affix name path sub :: (preorderList sub ++ preorderList rest)
  | .Spacer :: rest => .Spacer :: preorderList rest
termination_by items => listSize items
decreasing_by all_goals first
  | (simp [listSize, itemSize]; omega)
  | simp [listSize, itemSize]

/-- The backing-file path of an item (`None` for a Spacer, which has none). -/
def itemPath : BookItem → Option PathBuf
  | .Chapter _ _ p _ => some p
  | .Affix _ p _ => some p
  | .Spacer => none

/-- One suspended traversal level: the sibling slice, the position of the
parent item inside it, and the numbering context of that level
(spec section 4.3: "(remaining_siblings_at_this_level, position_in_level)"). -/
structure Frame where
  items : List BookItem
  index : Nat
  counter : Nat
  parent_label : String
  numbered : Bool

/-- Iterator state.  Fields `items`, `current_index` and `stack` are the ones
visible in `MDBook::iter` (src/book/mod.rs lines 101-107); `counter`,
`parent_label` and `numbered` are modelled from the spec, section 4.3
(numbering state of the current level; `src/book/bookitem.rs` is not in the
sources). -/
structure BookItems where
  items : List BookItem
  current_index : Nat
  counter : Nat
  parent_label : String
  numbered : Bool
  stack : List Frame

/-- The current level of an iterator state, viewed as a frame. -/
def BookItems.curFrame (s : BookItems) : Frame :=
  ⟨s.items, s.current_index, s.counter, s.parent_label, s.numbered⟩

/-- Rebuild an iterator state from a current frame and a stack. -/
def BookItems.ofFrame (f : Frame) (stack : List Frame) : BookItems :=
  ⟨f.items, f.index, f.counter, f.parent_label, f.numbered, stack⟩

/-- Advance a suspended frame past the parent position it recorded. -/
def advF (g : Frame) : Frame := ⟨g.items, g.index + 1, g.counter, g.parent_label, g.numbered⟩

/-- Modelled from the spec, section 4.3: yield the current (not yet consumed)
item `cur` of the current level, with its computed section label, descending
into Chapter/Affix children and suspending the current level on the stack. -/
def yieldStep (f : Frame) (stack : List Frame) (cur : BookItem) :
    (String × BookItem) × BookItems :=
  match cur with
  | .Chapter sec name path sub =>
    if f.numbered then
      ((mkLabel f.parent_label (f.counter + 1), .Chapter sec name path sub),
        .ofFrame ⟨sub, 0, 0, mkLabel f.parent_label (f.counter + 1), true⟩
          (⟨f.items, f.index, f.counter + 1, f.parent_label, f.numbered⟩ :: stack))
    else
      (("", .Chapter sec name path sub),
        .ofFrame ⟨sub, 0, 0, "", false⟩
          (⟨f.items, f.index, f.counter, f.parent_label, f.numbered⟩ :: stack))
  | .Affix name path sub =>
    (("", .Affix name path sub),
      .ofFrame ⟨sub, 0, 0, "", false⟩
        (⟨f.items, f.index, f.counter, f.parent_label, f.numbered⟩ :: stack))
  | .Spacer =>
    (("", .Spacer),
      .ofFrame ⟨f.items, f.index + 1, f.counter, f.parent_label, f.numbered⟩ stack)

/-- Modelled from the spec, sections 4.3 and 9 (`src/book/bookitem.rs`, which
implements `Iterator for BookItems`, is not in the sources): one step of the
flattening iterator.  If the current level is exhausted, pop the stack and
resume just past the parent; otherwise yield the current item. -/
def nextAux (f : Frame) : List Frame → Option ((String × BookItem) × BookItems)
  | [] =>
    match f.items.drop f.index with
    | [] => none
    | cur :: _ => some (yieldStep f [] cur)
  | g :: rest =>
    match f.items.drop f.index with
    | [] => nextAux (advF g) rest
    | cur :: _ => some (yieldStep f (g :: rest) cur)

/-- `Iterator::next` on the modelled iterator state. -/
def BookItems.next (s : BookItems) : Option ((String × BookItem) × BookItems) :=
  nextAux s.curFrame s.stack

/-- Nodes not yet yielded at one level (strictly after `index`). -/
def frameRemaining (f : Frame) : Nat := listSize (f.items.drop f.index)

/-- Nodes not yet yielded in the suspended levels. -/
def stackRemaining : List Frame → Nat
  | [] => 0
  | g :: rest => listSize (g.items.drop (g.index + 1)) + stackRemaining rest

/-- Total nodes the iterator has yet to yield. -/
def BookItems.measureBI (s : BookItems) : Nat :=
  frameRemaining s.curFrame + stackRemaining s.stack

/-- Drive the iterator for at most `fuel` steps, collecting the yields. -/
def runFuel : Nat → BookItems → List (String × BookItem)
  | 0, _ => []
  | fuel + 1, s =>
    match s.next with
    | none => []
    | some (out, s1) => out :: runFuel fuel s1

/-- Drive the iterator to exhaustion (enough fuel for every remaining node). -/
def runItems (s : BookItems) : List (String × BookItem) :=
  runFuel s.measureBI s

/-- The fields of `MDBook` (src/book/mod.rs lines 22-38) that the claims
touch.  `books` (a map to `book::Book`, whose code is not in the sources)
and `renderer` (a trait object) are omitted. -/
structure MDBook where
  root : PathBuf
  dest : PathBuf
  src : PathBuf
  title : String
  author : String
  description : String
  default_language : String
  content : List BookItem
  livereload : Option String

/-- `MDBook::new` (src/book/mod.rs lines 48-71), minus the directory probe. -/
def MDBook.new (root : PathBuf) : MDBook :=
  ⟨root, PathBuf.from1 "book", PathBuf.from1 "src", "", "", "", "en", [], none⟩

/-- `MDBook::iter` (src/book/mod.rs lines 101-107): borrow the content and
start with `current_index` 0 and an empty stack.  The numbering fields start
at the spec's seeds (counter 0, empty parent label, numbered). -/
def MDBook.iter (b : MDBook) : BookItems :=
  ⟨b.content, 0, 0, "", true, []⟩

example :
    runItems (MDBook.iter ⟨PathBuf.new, PathBuf.new, PathBuf.new, "", "", "", "en",
      [.Chapter "" "a" PathBuf.new [.Spacer], .Spacer], none⟩)
      = [("1", .Chapter "" "a" PathBuf.new [.Spacer]), ("", .Spacer), ("", .Spacer)] := rfl

/-- What the current level still flattens to. -/
def flattenFrame (f : Frame) : List (String × BookItem) :=
  flattenList f.numbered f.parent_label f.counter (f.items.drop f.index)

/-- What the suspended levels still flatten to. -/
def flattenStack : List Frame → List (String × BookItem)
  | [] => []
  | g :: rest => flattenFrame (advF g) ++ flattenStack rest

/-- Full remaining output of an iterator state, described recursively. -/
def flattenState (s : BookItems) : List (String × BookItem) :=
  flattenFrame s.curFrame ++ flattenStack s.stack

theorem flattenList_length :
    ∀ (numbered : Bool) (parent : String) (counter : Nat) (items : List BookItem),
      (flattenList numbered parent counter items).length = listSize items := by
  intro numbered parent counter items
  induction numbered, parent, counter, items using flattenList.induct with
  | case1 _ _ _ => simp [flattenList, listSize]
  | case2 parent counter sec name path sub rest ih1 ih2 =>
    simp [flattenList, listSize, itemSize, ih1, ih2]; omega
  | case3 numbered parent counter sec name path sub rest hn ih1 ih2 =>
    simp [flattenList, hn, listSize, itemSize, ih1, ih2]; omega
  | case4 numbered parent counter name path sub rest ih1 ih2 =>
    simp [flattenList, listSize, itemSize, ih1, ih2]; omega
  | case5 numbered parent counter rest ih =>
    simp [flattenList, listSize, itemSize, ih]; omega

theorem drop_cons_succ {α : Type} {l : List α} {n : Nat} {a : α} {tl : List α}
    (h : l.drop n = a :: tl) : l.drop (n + 1) = tl := by
  have h1 : (l.drop n).drop 1 = l.drop (n + 1) := List.drop_drop 1 n l
  rw [← h1, h, List.drop_one]
  rfl

theorem nextAux_nil_eq (f : Frame) :
    nextAux f [] = (match f.items.drop f.index with
      | [] => none
      | cur :: _ => some (yieldStep f [] cur)) := rfl

theorem nextAux_cons_eq (f g : Frame) (rest : List Frame) :
    nextAux f (g :: rest) = (match f.items.drop f.index with
      | [] => nextAux (advF g) rest
      | cur :: _ => some (yieldStep f (g :: rest) cur)) := rfl

theorem nextAux_none_eq :
    ∀ (stack : List Frame) (f : Frame), nextAux f stack = none →
      flattenFrame f ++ flattenStack stack = [] := by
  intro stack
  induction stack with
  | nil =>
    intro f h
    rw [nextAux_nil_eq] at h
    rcases hdrop : f.items.drop f.index with _ | ⟨cur, tl⟩
    · simp [flattenFrame, hdrop, flattenList, flattenStack]
    · rw [hdrop] at h
      simp at h
  | cons g rest ih =>
    intro f h
    rw [nextAux_cons_eq] at h
    rcases hdrop : f.items.drop f.index with _ | ⟨cur, tl⟩
    · rw [hdrop] at h
      simp only [] at h
      have h2 := ih (advF g) h
      simp only [flattenFrame, hdrop, flattenList, flattenStack] at *
      simp [h2]
    · rw [hdrop] at h
      simp at h

theorem yieldStep_spec (f : Frame) (stack : List Frame) (cur : BookItem)
    (tl : List BookItem) (hdrop : f.items.drop f.index = cur :: tl) :
    flattenFrame f ++ flattenStack stack
        = (yieldStep f stack cur).1 :: flattenState (yieldStep f stack cur).2 ∧
      (yieldStep f stack cur).2.measureBI + 1 = frameRemaining f + stackRemaining stack := by
  have htl : f.items.drop (f.index + 1) = tl := drop_cons_succ hdrop
  rcases cur with ⟨sec, name, path, sub⟩ | ⟨name, path, sub⟩ | _
  · by_cases hnum : f.numbered = true
    · constructor
      · simp [flattenFrame, hdrop, flattenList, hnum, yieldStep, flattenState,
          BookItems.curFrame, BookItems.ofFrame, flattenStack, advF, htl]
      · simp [yieldStep, hnum, BookItems.measureBI, BookItems.ofFrame,
          BookItems.curFrame, frameRemaining, stackRemaining, hdrop, htl,
          listSize, itemSize, advF]
        omega
    · simp only [Bool.not_eq_true] at hnum
      constructor
      · simp [flattenFrame, hdrop, flattenList, hnum, yieldStep, flattenState,
          BookItems.curFrame, BookItems.ofFrame, flattenStack, advF, htl]
      · simp [yieldStep, hnum, BookItems.measureBI, BookItems.ofFrame,
          BookItems.curFrame, frameRemaining, stackRemaining, hdrop, htl,
          listSize, itemSize, advF]
        omega
  · constructor
    · simp [flattenFrame, hdrop, flattenList, yieldStep, flattenState,
        BookItems.curFrame, BookItems.ofFrame, flattenStack, advF, htl]
    · simp [yieldStep, BookItems.measureBI, BookItems.ofFrame,
        BookItems.curFrame, frameRemaining, stackRemaining, hdrop, htl,
        listSize, itemSize, advF]
      omega
  · constructor
    · simp [flattenFrame, hdrop, flattenList, yieldStep, flattenState,
        BookItems.curFrame, BookItems.ofFrame, flattenStack, advF, htl]
    · simp [yieldStep, BookItems.measureBI, BookItems.ofFrame,
        BookItems.curFrame, frameRemaining, stackRemaining, hdrop, htl,
        listSize, itemSize, advF]
      omega

theorem nextAux_some_eq :
    ∀ (stack : List Frame) (f : Frame) (out : String × BookItem) (s1 : BookItems),
      nextAux f stack = some (out, s1) →
        flattenFrame f ++ flattenStack stack = out :: flattenState s1 ∧
          s1.measureBI + 1 = frameRemaining f + stackRemaining stack := by
  intro stack
  induction stack with
  | nil =>
    intro f out s1 h
    rw [nextAux_nil_eq] at h
    rcases hdrop : f.items.drop f.index with _ | ⟨cur, tl⟩
    · rw [hdrop] at h; simp at h
    · rw [hdrop] at h
      simp only [Option.some.injEq] at h
      obtain ⟨h1, h2⟩ := yieldStep_spec f [] cur tl hdrop
      rw [h] at h1 h2
      exact ⟨h1, h2⟩
  | cons g rest ih =>
    intro f out s1 h
    rw [nextAux_cons_eq] at h
    rcases hdrop : f.items.drop f.index with _ | ⟨cur, tl⟩
    · rw [hdrop] at h
      simp only [] at h
      obtain ⟨h1, h2⟩ := ih (advF g) out s1 h
      constructor
      · simp only [flattenFrame, hdrop, flattenList, flattenStack, List.nil_append]
        exact h1
      · simp only [frameRemaining, hdrop, listSize, stackRemaining, advF] at *
        omega
    · rw [hdrop] at h
      simp only [Option.some.injEq] at h
      obtain ⟨h1, h2⟩ := yieldStep_spec f (g :: rest) cur tl hdrop
      rw [h] at h1 h2
      exact ⟨h1, h2⟩

theorem itemSize_pos (i : BookItem) : 1 ≤ itemSize i := by
  rcases i with ⟨_, _, _, _⟩ | ⟨_, _, _⟩ | _ <;> simp [itemSize]

theorem listSize_eq_zero {l : List BookItem} (h : listSize l = 0) : l = [] := by
  cases l with
  | nil => rfl
  | cons i rest =>
    exfalso
    have := itemSize_pos i
    simp [listSize] at h
    omega

theorem measure_zero_next_none :
    ∀ (stack : List Frame) (f : Frame),
      frameRemaining f + stackRemaining stack = 0 → nextAux f stack = none := by
  intro stack
  induction stack with
  | nil =>
    intro f h
    have h1 : f.items.drop f.index = [] := by
      apply listSize_eq_zero
      simp [frameRemaining, stackRemaining] at h
      exact h
    rw [nextAux_nil_eq, h1]
  | cons g rest ih =>
    intro f h
    have h1 : f.items.drop f.index = [] := by
      apply listSize_eq_zero
      simp [frameRemaining, stackRemaining] at h
      omega
    rw [nextAux_cons_eq, h1]
    simp only []
    apply ih
    simp [frameRemaining, stackRemaining, advF] at *
    omega

theorem runFuel_spec :
    ∀ (fuel : Nat) (s : BookItems), s.measureBI ≤ fuel →
      runFuel fuel s = flattenState s := by
  intro fuel
  induction fuel with
  | zero =>
    intro s h
    have h0 : frameRemaining s.curFrame + stackRemaining s.stack = 0 := by
      simp [BookItems.measureBI] at h
      omega
    have hn : nextAux s.curFrame s.stack = none := measure_zero_next_none s.stack s.curFrame h0
    have he : flattenFrame s.curFrame ++ flattenStack s.stack = [] := nextAux_none_eq s.stack s.curFrame hn
    simp [runFuel, flattenState, he]
  | succ n ih =>
    intro s h
    rcases hnext : s.next with _ | ⟨out, s1⟩
    · have he := nextAux_none_eq s.stack s.curFrame hnext
      simp only [runFuel, hnext, flattenState]
      exact he.symm
    · obtain ⟨h1, h2⟩ := nextAux_some_eq s.stack s.curFrame out s1 hnext
      have hm : s1.measureBI ≤ n := by
        have hms : s.measureBI = frameRemaining s.curFrame + stackRemaining s.stack := rfl
        omega
      simp only [runFuel, hnext]
      rw [ih s1 hm]
      have hs : flattenState s = flattenFrame s.curFrame ++ flattenStack s.stack := rfl
      rw [hs, h1]

theorem runItems_eq_flattenState (s : BookItems) : runItems s = flattenState s :=
  runFuel_spec s.measureBI s (Nat.le_refl _)

theorem runItems_iter_eq (b : MDBook) :
    runItems b.iter = flattenList true "" 0 b.content := by
  rw [runItems_eq_flattenState]
  simp [flattenState, MDBook.iter, BookItems.curFrame, flattenFrame, flattenStack]

theorem runFuel_irrel (n : Nat) (s : BookItems) (h : s.measureBI ≤ n) :
    runFuel n s = runItems s := by
  rw [runFuel_spec n s h, runItems_eq_flattenState]

/-- Parse errors of the outline parser (spec section 7). -/
inductive ParseError where
  | Io
  | Malformed (line : Nat) (text : String)
deriving DecidableEq, Repr

/-- Split a character sequence at every occurrence of `sep`. -/
def splitCL (sep : Char) : List Char → List (List Char)
  | [] => [[]]
  | c :: rest =>
    let r := splitCL sep rest
    if c = sep then [] :: r
    else match r with
      | [] => [[c]]
      | hd :: tl => (c :: hd) :: tl

/-- Number of leading spaces of a line. -/
def countSpacesCL : List Char → Nat
  | ' ' :: rest => countSpacesCL rest + 1
  | _ => 0

/-- Split a character sequence at the first `](` divider. -/
def splitLink : List Char → Option (List Char × List Char)
  | [] => none
  | ']' :: '(' :: rest => some ([], rest)
  | c :: rest =>
    match splitLink rest with
    | some ab => some (c :: ab.1, ab.2)
    | none => none

/-- Whether a character sequence still contains a `](` divider. -/
def containsLinkSep : List Char → Bool
  | [] => false
  | ']' :: '(' :: _ => true
  | _ :: rest => containsLinkSep rest

/-- Parse a Markdown link `[name](path)` with exactly one `](` divider,
returning display name and target. -/
def parseLink (cs : List Char) : Option (String × String) :=
  match cs with
  | '[' :: rest =>
    match rest.reverse with
    | ')' :: revBody =>
      match splitLink revBody.reverse with
      | some np => if containsLinkSep np.2 then none
                   else some (String.mk np.1, String.mk np.2)
      | none => none
    | _ => none
  | _ => none

/-- One recognized line of the outline document: a list-item link (numbered
chapter) at some indentation depth, a separator line, or a bare link
(un-numbered front/back matter). -/
inductive SummaryTok where
  | chapter (depth : Nat) (name : String) (path : String)
  | spacer (depth : Nat)
  | affix (name : String) (path : String)

/-- Modelled from the spec, sections 4.2 and 6: classify one line of the
outline document.  `none` means structurally malformed; `some none` means
ignored (blank or heading line); the indentation step is two spaces.
A list item `- [name](path)` at depth `ind / 2` is a chapter entry, `---` a
spacer, and an un-indented bare link `[name](path)` an affix entry. -/
def classifyLine (line : List Char) : Option (Option SummaryTok) :=
  let ind := countSpacesCL line
  match line.drop ind with
  | [] => some none
  | '#' :: _ => some none
  | '-' :: '-' :: '-' :: _ =>
    if ind % 2 = 0 then some (some (.spacer (ind / 2))) else none
  | '-' :: ' ' :: body =>
    match parseLink body with
    | some np => if ind % 2 = 0 then some (some (.chapter (ind / 2) np.1 np.2)) else none
    | none => none
  | rest =>
    match parseLink rest with
    | some np => if ind = 0 then some (some (.affix np.1 np.2)) else none
    | none => none

/-- Tokenize the lines of the document, 1-based line numbers; a malformed
line aborts the parse with `Malformed` carrying its number and raw text.
Recognized tokens keep their line number and raw text for later structural
errors. -/
def tokenizeLines : Nat → List (List Char) → Except ParseError (List (Nat × String × SummaryTok))
  | _, [] => .ok []
  | ln, line :: rest =>
    match classifyLine line with
    | none => .error (.Malformed ln (String.mk line))
    | some none => tokenizeLines (ln + 1) rest
    | some (some t) =>
      match tokenizeLines (ln + 1) rest with
      | .error e => .error e
      | .ok ts => .ok ((ln, String.mk line, t) :: ts)

/-- The nesting depth a token asks for (bare links live at depth 0). -/
def tokDepth : SummaryTok → Nat
  | .chapter d _ _ => d
  | .spacer d => d
  | .affix _ _ => 0

/-- The link target of a token, if it is a link. -/
def tokTarget : SummaryTok → Option String
  | .chapter _ _ p => some p
  | .spacer _ => none
  | .affix _ p => some p

/-- Number of Chapter entries in a sibling list (numbered-sibling counter). -/
def chapCount : List BookItem → Nat
  | [] => 0
  | .Chapter _ _ _ _ :: rest => chapCount rest + 1
  | _ :: rest => chapCount rest

/-- A suspended parser level: the entry that opened it (tag, parse-time
section hint, name, path), the earlier siblings of the parent level
(reversed), and the parent level's own label context. -/
structure BFrame where
  is_affix : Bool
  label : String
  name : String
  path : PathBuf
  saved : List BookItem
  saved_label : String

/-- Rebuild the item that opened a level from its frame and its children. -/
def closeNode (fr : BFrame) (children : List BookItem) : BookItem :=
  if fr.is_affix then .Affix fr.name fr.path children
  else .Chapter fr.label fr.name fr.path children

/-- Parser state: current depth, label context of the current level, the
current level's siblings in reverse order, the stack of open levels, and
whether a depth-0 separator has closed the numbered section (back matter;
the spec leaves the exact boundary open, section 9, but its concrete
scenario in section 8 turns a depth-0 list item after `---` into an Affix). -/
structure BState where
  depth : Nat
  label : String
  siblings : List BookItem
  frames : List BFrame
  back : Bool

/-- Close the innermost open level, attaching its children to the entry that
opened it and restoring the parent level. -/
def popLevel (st : BState) : BState :=
  match st.frames with
  | [] => st
  | fr :: fs =>
    ⟨st.depth - 1, fr.saved_label, closeNode fr st.siblings.reverse :: fr.saved, fs, st.back⟩

/-- Close `n` open levels. -/
def popN : Nat → BState → BState
  | 0, st => st
  | n + 1, st => popN n (popLevel st)

/-- Append one recognized entry as a sibling of the current level, computing
the parse-time section hint of a chapter from the numbered-sibling counter. -/
def appendTok (st : BState) (t : SummaryTok) : BState :=
  match t with
  | .chapter _ name path =>
    if st.back && st.depth = 0 then
      ⟨st.depth, st.label, .Affix name (PathBuf.from1 path) [] :: st.siblings, st.frames, st.back⟩
    else
      ⟨st.depth, st.label,
        .Chapter (mkLabel st.label (chapCount st.siblings + 1)) name (PathBuf.from1 path) []
          :: st.siblings, st.frames, st.back⟩
  | .spacer _ =>
    ⟨st.depth, st.label, .Spacer :: st.siblings, st.frames, st.back || st.depth = 0⟩
  | .affix name path =>
    ⟨st.depth, st.label, .Affix name (PathBuf.from1 path) [] :: st.siblings, st.frames, st.back⟩

/-- Close every open level and return the finished top-level sequence. -/
def closeFrames : List BFrame → List BookItem → List BookItem
  | [], sibs => sibs.reverse
  | fr :: fs, sibs => closeFrames fs (closeNode fr sibs.reverse :: fr.saved)

/-- Modelled from the spec, section 4.2, step 2 (the indentation-stack tree
builder of `markdown::summary`, which is not in the sources): attach each
token at its depth.  A token more than one level deeper than the open stack,
or one level deeper with no preceding Chapter/Affix sibling to act as its
parent, is a structural error. -/
def buildItems : List (Nat × String × SummaryTok) → BState → Except ParseError (List BookItem)
  | [], st => .ok (closeFrames st.frames st.siblings)
  | (ln, raw, t) :: rest, st =>
    let d := tokDepth t
    if st.depth + 1 < d then .error (.Malformed ln raw)
    else if d = st.depth + 1 then
      match st.siblings with
      | .Chapter sec name path children :: sibs =>
        buildItems rest (appendTok ⟨d, sec, children.reverse,
          ⟨false, sec, name, path, sibs, st.label⟩ :: st.frames, st.back⟩ t)
      | .Affix name path children :: sibs =>
        buildItems rest (appendTok ⟨d, "", children.reverse,
          ⟨true, "", name, path, sibs, st.label⟩ :: st.frames, st.back⟩ t)
      | _ => .error (.Malformed ln raw)
    else
      buildItems rest (appendTok (popN (st.depth - d) st) t)

/-- Modelled from the spec, sections 4.2, 6 and 7
(`markdown::summary::construct_bookitems`, called by `MDBook::parse_summary`
in src/book/mod.rs line 468, is not in the sources): parse the full text of
the outline document into the ordered top-level sequence of book items, or
fail with the first structural error and no partial tree. -/
def construct_bookitems (text : String) : Except ParseError (List BookItem) :=
  match tokenizeLines 1 (splitCL '\n' text.data) with
  | .error e => .error e
  | .ok toks => buildItems toks ⟨0, "", [], [], false⟩

/-- `MDBook::parse_summary` (src/book/mod.rs lines 466-470):
`self.content = try!(construct_bookitems(...))` — on success the parsed
sequence replaces `content`, on error the early return leaves the receiver
untouched.  The text stands for the contents of `src/SUMMARY.md`. -/
def MDBook.parse_summary (b : MDBook) (text : String) :
    Except ParseError Unit × MDBook :=
  match construct_bookitems text with
  | .error e => (.error e, b)
  | .ok items => (.ok (), { b with content := items })

/-- The link target of one document line, when it carries one. -/
def lineTarget (line : List Char) : Option String :=
  match classifyLine line with
  | some (some t) => tokTarget t
  | _ => none

/-- The link targets of the document, top to bottom. -/
def linkTargets (text : String) : List String :=
  (splitCL '\n' text.data).filterMap lineTarget

/-- `MDBook::get_root`. -/
def MDBook.get_root (b : MDBook) : PathBuf := b.root

/-- `MDBook::set_dest` (src/book/mod.rs lines 381-395): an absolute path is
stored as given, a relative one is joined onto `root`. -/
def MDBook.set_dest (b : MDBook) (dest : PathBuf) : MDBook :=
  if dest.is_absolute then { b with dest := dest }
  else { b with dest := b.root.join dest }

/-- `MDBook::get_dest`. -/
def MDBook.get_dest (b : MDBook) : PathBuf := b.dest

/-- `MDBook::set_src` (src/book/mod.rs lines 401-415): an absolute path is
stored as given, a relative one is joined onto `root`. -/
def MDBook.set_src (b : MDBook) (src : PathBuf) : MDBook :=
  if src.is_absolute then { b with src := src }
  else { b with src := b.root.join src }

/-- `MDBook::get_src`. -/
def MDBook.get_src (b : MDBook) : PathBuf := b.src

/-- Whether the modelled file system (a list of path-content files) has a
file at `p`. -/
def fileExists (fs : List (PathBuf × String)) (p : PathBuf) : Bool :=
  fs.any (fun e => decide (e.1 = p))

/-- The scaffolding loop of `MDBook::init` (src/book/mod.rs lines 163-183),
run over the yields of the flattening iterator against a modelled file
system: Spacer entries are skipped (`continue`), Chapter/Affix entries with
an empty path (`ch.path != PathBuf::new()` fails) are skipped, and any other
entry whose file `src.join(ch.path)` does not yet exist is created with the
single line `# {name}` (directory creation is not modelled). -/
def init_scaffold (src : PathBuf) :
    List (String × BookItem) → List (PathBuf × String) → List (PathBuf × String)
  | [], fs => fs
  | (_, .Spacer) :: rest, fs => init_scaffold src rest fs
  | (_, .Chapter _ name path _) :: rest, fs =>
    if path = PathBuf.new then init_scaffold src rest fs
    else if fileExists fs (src.join path) then init_scaffold src rest fs
    else init_scaffold src rest (fs ++ [(src.join path, "# " ++ name ++ "\n")])
  | (_, .Affix name path _) :: rest, fs =>
    if path = PathBuf.new then init_scaffold src rest fs
    else if fileExists fs (src.join path) then init_scaffold src rest fs
    else init_scaffold src rest (fs ++ [(src.join path, "# " ++ name ++ "\n")])

/-- A book over the given content with `MDBook::new`-style remaining fields. -/
def mkBook (content : List BookItem) : MDBook :=
  ⟨PathBuf.new, PathBuf.from1 "book", PathBuf.from1 "src", "", "", "", "en", content, none⟩

/-- The concrete outline document of the spec, section 8. -/
def specDoc : String :=
  "# Summary\n- [Chapter 1](ch1.md)\n  - [Sub A](ch1/a.md)\n- [Chapter 2](ch2.md)\n---\n- [Appendix](appendix.md)"

/-- The tree the spec, section 8, requires for `specDoc`. -/
def specItems : List BookItem :=
  [.Chapter "1" "Chapter 1" (PathBuf.from1 "ch1.md")
     [.Chapter "1.1" "Sub A" (PathBuf.from1 "ch1/a.md") []],
   .Chapter "2" "Chapter 2" (PathBuf.from1 "ch2.md") [],
   .Spacer,
   .Affix "Appendix" (PathBuf.from1 "appendix.md") []]

example : construct_bookitems specDoc = .ok specItems := rfl

theorem flattenList_map_snd :
    ∀ (numbered : Bool) (parent : String) (counter : Nat) (items : List BookItem),
      (flattenList numbered parent counter items).map Prod.snd = preorderList items := by
  intro numbered parent counter items
  induction numbered, parent, counter, items using flattenList.induct with
  | case1 _ _ _ => simp [flattenList, preorderList]
  | case2 parent counter sec name path sub rest ih1 ih2 =>
    simp [flattenList, preorderList, ih1, ih2]
  | case3 numbered parent counter sec name path sub rest hn ih1 ih2 =>
    simp [flattenList, hn, preorderList, ih1, ih2]
  | case4 numbered parent counter name path sub rest ih1 ih2 =>
    simp [flattenList, preorderList, ih1, ih2]
  | case5 numbered parent counter rest ih =>
    simp [flattenList, preorderList, ih]

theorem preorderList_append :
    ∀ (a b : List BookItem), preorderList (a ++ b) = preorderList a ++ preorderList b := by
  intro a b
  induction a with
  | nil => simp [preorderList]
  | cons i rest ih =>
    rcases i with ⟨sec, name, path, sub⟩ | ⟨name, path, sub⟩ | _ <;>
      simp [preorderList, ih]

/-- The backing-file paths of a forest in pre-order (Spacers have none). -/
def pathsList (items : List BookItem) : List PathBuf :=
  (preorderList items).filterMap itemPath

theorem pathsList_append (a b : List BookItem) :
    pathsList (a ++ b) = pathsList a ++ pathsList b := by
  simp [pathsList, preorderList_append, List.filterMap_append]

theorem pathsList_single_chapter (sec name : String) (path : PathBuf) (sub : List BookItem) :
    pathsList [.Chapter sec name path sub] = path :: pathsList sub := by
  simp [pathsList, preorderList, itemPath]

theorem pathsList_single_affix (name : String) (path : PathBuf) (sub : List BookItem) :
    pathsList [.Affix name path sub] = path :: pathsList sub := by
  simp [pathsList, preorderList, itemPath]

theorem pathsList_closeNode (fr : BFrame) (children : List BookItem) :
    pathsList [closeNode fr children] = fr.path :: pathsList children := by
  unfold closeNode
  by_cases h : fr.is_affix = true <;>
    simp [h, pathsList_single_chapter, pathsList_single_affix]

theorem pathsList_closeFrames_cons :
    ∀ (fs : List BFrame) (sibs : List BookItem) (n : BookItem),
      pathsList (closeFrames fs (n :: sibs))
        = pathsList (closeFrames fs sibs) ++ pathsList [n] := by
  intro fs
  induction fs with
  | nil =>
    intro sibs n
    simp [closeFrames, pathsList_append]
  | cons fr fs ih =>
    intro sibs n
    show pathsList (closeFrames fs (closeNode fr (n :: sibs).reverse :: fr.saved)) = _
    rw [ih]
    have h2 : closeFrames (fr :: fs) sibs
        = closeFrames fs (closeNode fr sibs.reverse :: fr.saved) := rfl
    rw [h2, ih]
    have h1 : (n :: sibs).reverse = sibs.reverse ++ [n] := by simp
    rw [h1, pathsList_closeNode, pathsList_closeNode, pathsList_append]
    simp

theorem pathsList_nil : pathsList [] = [] := by
  simp [pathsList, preorderList]

theorem popLevel_closeFrames (st : BState) :
    closeFrames (popLevel st).frames (popLevel st).siblings
      = closeFrames st.frames st.siblings := by
  rcases hf : st.frames with _ | ⟨fr, fs⟩
  · simp [popLevel, hf]
  · simp [popLevel, hf, closeFrames]

theorem popN_closeFrames :
    ∀ (n : Nat) (st : BState),
      closeFrames (popN n st).frames (popN n st).siblings
        = closeFrames st.frames st.siblings := by
  intro n
  induction n with
  | zero => intro st; rfl
  | succ n ih =>
    intro st
    show closeFrames (popN n (popLevel st)).frames (popN n (popLevel st)).siblings = _
    rw [ih (popLevel st), popLevel_closeFrames]

theorem filterMap_cons_toList {α β : Type} (f : α → Option β) (a : α) (l : List α) :
    List.filterMap f (a :: l) = (f a).toList ++ List.filterMap f l := by
  cases h : f a <;> simp [List.filterMap_cons, h]

theorem appendTok_paths (st : BState) (t : SummaryTok) :
    pathsList (closeFrames (appendTok st t).frames (appendTok st t).siblings)
      = pathsList (closeFrames st.frames st.siblings)
        ++ ((tokTarget t).toList.map PathBuf.from1) := by
  rcases t with ⟨d, name, path⟩ | d | ⟨name, path⟩
  · unfold appendTok
    cases hb : (st.back && decide (st.depth = 0)) <;> simp only [hb]
    · simp only [Bool.false_eq_true, if_false]
      rw [pathsList_closeFrames_cons, pathsList_single_chapter, pathsList_nil]
      simp [tokTarget]
    · simp only [if_true]
      rw [pathsList_closeFrames_cons, pathsList_single_affix, pathsList_nil]
      simp [tokTarget]
  · unfold appendTok
    rw [pathsList_closeFrames_cons]
    simp [tokTarget, pathsList, preorderList, itemPath]
  · unfold appendTok
    rw [pathsList_closeFrames_cons, pathsList_single_affix, pathsList_nil]
    simp [tokTarget]

theorem buildItems_paths :
    ∀ (toks : List (Nat × String × SummaryTok)) (st : BState) (items : List BookItem),
      buildItems toks st = .ok items →
      pathsList items
        = pathsList (closeFrames st.frames st.siblings)
          ++ (toks.filterMap (fun x => tokTarget x.2.2)).map PathBuf.from1 := by
  intro toks
  induction toks with
  | nil =>
    intro st items h
    simp only [buildItems, Except.ok.injEq] at h
    subst h
    simp
  | cons tok rest ih =>
    rcases tok with ⟨ln, raw, t⟩
    intro st items h
    simp only [buildItems] at h
    by_cases h1 : st.depth + 1 < tokDepth t
    · rw [if_pos h1] at h
      exact absurd h (by simp)
    · rw [if_neg h1] at h
      by_cases h2 : tokDepth t = st.depth + 1
      · rw [if_pos h2] at h
        rcases hs : st.siblings with _ | ⟨i, sibs⟩
        · rw [hs] at h
          exact absurd h (by simp)
        · rcases i with ⟨sec, name, path, children⟩ | ⟨name, path, children⟩ | _
          · rw [hs] at h
            have h3 := ih _ items h
            rw [h3, appendTok_paths]
            have h4 : closeFrames
                (BState.mk (tokDepth t) sec children.reverse
                  (⟨false, sec, name, path, sibs, st.label⟩ :: st.frames) st.back).frames
                (BState.mk (tokDepth t) sec children.reverse
                  (⟨false, sec, name, path, sibs, st.label⟩ :: st.frames) st.back).siblings
                = closeFrames st.frames st.siblings := by
              simp [closeFrames, closeNode, hs]
            rw [h4, filterMap_cons_toList]
            simp
            rw [hs]
          · rw [hs] at h
            have h3 := ih _ items h
            rw [h3, appendTok_paths]
            have h4 : closeFrames
                (BState.mk (tokDepth t) "" children.reverse
                  (⟨true, "", name, path, sibs, st.label⟩ :: st.frames) st.back).frames
                (BState.mk (tokDepth t) "" children.reverse
                  (⟨true, "", name, path, sibs, st.label⟩ :: st.frames) st.back).siblings
                = closeFrames st.frames st.siblings := by
              simp [closeFrames, closeNode, hs]
            rw [h4, filterMap_cons_toList]
            simp
            rw [hs]
          · rw [hs] at h
            exact absurd h (by simp)
      · rw [if_neg h2] at h
        have h3 := ih _ items h
        rw [h3, appendTok_paths, popN_closeFrames, filterMap_cons_toList]
        simp

theorem tokenizeLines_targets :
    ∀ (lines : List (List Char)) (ln : Nat) (toks : List (Nat × String × SummaryTok)),
      tokenizeLines ln lines = .ok toks →
      toks.filterMap (fun x => tokTarget x.2.2) = lines.filterMap lineTarget := by
  intro lines
  induction lines with
  | nil =>
    intro ln toks h
    simp only [tokenizeLines, Except.ok.injEq] at h
    subst h
    simp
  | cons line rest ih =>
    intro ln toks h
    simp only [tokenizeLines] at h
    rcases hc : classifyLine line with _ | _ | t
    · rw [hc] at h
      exact absurd h (by simp)
    · rw [hc] at h
      have h5 := ih (ln + 1) toks h
      simp [lineTarget, hc, h5]
    · rw [hc] at h
      rcases hr : tokenizeLines (ln + 1) rest with e | ts
      · rw [hr] at h
        exact absurd h (by simp)
      · rw [hr] at h
        simp only [Except.ok.injEq] at h
        subst h
        rw [filterMap_cons_toList, filterMap_cons_toList]
        simp [lineTarget, hc, ih (ln + 1) ts hr]

theorem flattenList_append_true :
    ∀ (xs : List BookItem) (p : String) (c : Nat) (ys : List BookItem),
      flattenList true p c (xs ++ ys)
        = flattenList true p c xs ++ flattenList true p (c + chapCount xs) ys := by
  intro xs
  induction xs with
  | nil => intro p c ys; simp [flattenList, chapCount]
  | cons i rest ih =>
    intro p c ys
    rcases i with ⟨sec, name, path, sub⟩ | ⟨name, path, sub⟩ | _
    · show flattenList true p c (.Chapter sec name path sub :: (rest ++ ys)) = _
      rw [flattenList, flattenList]
      simp only [if_true]
      rw [ih p (c + 1) ys]
      have hc : c + 1 + chapCount rest = c + chapCount (.Chapter sec name path sub :: rest) := by
        simp [chapCount]; omega
      rw [hc]
      simp
    · show flattenList true p c (.Affix name path sub :: (rest ++ ys)) = _
      rw [flattenList, flattenList]
      rw [ih p c ys]
      have hc : c + chapCount rest = c + chapCount (.Affix name path sub :: rest) := by
        simp [chapCount]
      rw [hc]
      simp
    · show flattenList true p c (.Spacer :: (rest ++ ys)) = _
      rw [flattenList, flattenList]
      rw [ih p c ys]
      have hc : c + chapCount rest = c + chapCount (.Spacer :: rest) := by
        simp [chapCount]
      rw [hc]
      simp

theorem flattenList_false_labels :
    ∀ (numbered : Bool) (parent : String) (counter : Nat) (items : List BookItem),
      numbered = false → ∀ p ∈ flattenList numbered parent counter items, p.1 = "" := by
  intro numbered parent counter items
  induction numbered, parent, counter, items using flattenList.induct with
  | case1 _ _ _ =>
    intro _ p hp
    simp [flattenList] at hp
  | case2 parent counter sec name path sub rest ih1 ih2 =>
    intro hfalse
    exact absurd hfalse (by simp)
  | case3 numbered parent counter sec name path sub rest hn ih1 ih2 =>
    intro hf p hp
    simp only [Bool.not_eq_true] at hn
    rw [flattenList] at hp
    simp only [hn, Bool.false_eq_true, if_false, List.mem_cons, List.mem_append] at hp
    rcases hp with rfl | hp | hp
    · rfl
    · exact ih1 rfl p hp
    · exact ih2 rfl p hp
  | case4 numbered parent counter name path sub rest ih1 ih2 =>
    intro hf p hp
    rw [flattenList] at hp
    simp only [List.mem_cons, List.mem_append] at hp
    rcases hp with rfl | hp | hp
    · rfl
    · exact ih1 rfl p hp
    · exact ih2 hf p hp
  | case5 numbered parent counter rest ih =>
    intro hf p hp
    rw [flattenList] at hp
    simp only [List.mem_cons] at hp
    rcases hp with rfl | hp
    · rfl
    · exact ih hf p hp

theorem fileExists_append (fs : List (PathBuf × String)) (e : PathBuf × String) (p : PathBuf) :
    fileExists (fs ++ [e]) p = (fileExists fs p || decide (e.1 = p)) := by
  simp [fileExists, List.any_append]

theorem fileExists_mono :
    ∀ (items : List (String × BookItem)) (src : PathBuf) (fs : List (PathBuf × String))
      (p : PathBuf), fileExists fs p = true →
      fileExists (init_scaffold src items fs) p = true := by
  intro items
  induction items with
  | nil => intro src fs p h; exact h
  | cons it rest ih =>
    intro src fs p h
    rcases it with ⟨l, i⟩
    rcases i with ⟨sec, name, path, sub⟩ | ⟨name, path, sub⟩ | _
    · rw [init_scaffold]
      by_cases hp : path = PathBuf.new
      · rw [if_pos hp]; exact ih src fs p h
      · rw [if_neg hp]
        by_cases hex : fileExists fs (src.join path) = true
        · rw [if_pos hex]; exact ih src fs p h
        · rw [if_neg hex]
          apply ih
          rw [fileExists_append]
          simp [h]
    · rw [init_scaffold]
      by_cases hp : path = PathBuf.new
      · rw [if_pos hp]; exact ih src fs p h
      · rw [if_neg hp]
        by_cases hex : fileExists fs (src.join path) = true
        · rw [if_pos hex]; exact ih src fs p h
        · rw [if_neg hex]
          apply ih
          rw [fileExists_append]
          simp [h]
    · rw [init_scaffold]
      exact ih src fs p h

theorem init_scaffold_provenance :
    ∀ (items : List (String × BookItem)) (src : PathBuf) (fs : List (PathBuf × String))
      (e : PathBuf × String), e ∈ init_scaffold src items fs →
      e ∈ fs ∨ ∃ l sec name path sub,
        ((l, BookItem.Chapter sec name path sub) ∈ items
          ∨ (l, BookItem.Affix name path sub) ∈ items)
        ∧ path ≠ PathBuf.new ∧ e = (src.join path, "# " ++ name ++ "\n") := by
  intro items
  induction items with
  | nil => intro src fs e h; exact Or.inl h
  | cons it rest ih =>
    intro src fs e h
    rcases it with ⟨l, i⟩
    have lift :
        (e ∈ fs ∨ ∃ l1 sec1 name1 path1 sub1,
          ((l1, BookItem.Chapter sec1 name1 path1 sub1) ∈ rest
            ∨ (l1, BookItem.Affix name1 path1 sub1) ∈ rest)
          ∧ path1 ≠ PathBuf.new ∧ e = (src.join path1, "# " ++ name1 ++ "\n")) →
        e ∈ fs ∨ ∃ l1 sec1 name1 path1 sub1,
          ((l1, BookItem.Chapter sec1 name1 path1 sub1) ∈ (l, i) :: rest
            ∨ (l1, BookItem.Affix name1 path1 sub1) ∈ (l, i) :: rest)
          ∧ path1 ≠ PathBuf.new ∧ e = (src.join path1, "# " ++ name1 ++ "\n") := by
      rintro (h1 | ⟨l1, sec1, name1, path1, sub1, hm, hp, he⟩)
      · exact Or.inl h1
      · exact Or.inr ⟨l1, sec1, name1, path1, sub1,
          by rcases hm with hm | hm
             · exact Or.inl (List.mem_cons_of_mem _ hm)
             · exact Or.inr (List.mem_cons_of_mem _ hm), hp, he⟩
    rcases i with ⟨sec, name, path, sub⟩ | ⟨name, path, sub⟩ | _
    · rw [init_scaffold] at h
      by_cases hp : path = PathBuf.new
      · rw [if_pos hp] at h; exact lift (ih src fs e h)
      · rw [if_neg hp] at h
        by_cases hex : fileExists fs (src.join path) = true
        · rw [if_pos hex] at h; exact lift (ih src fs e h)
        · rw [if_neg hex] at h
          rcases ih src _ e h with h1 | h1
          · rcases List.mem_append.mp h1 with h2 | h2
            · exact Or.inl h2
            · simp only [List.mem_singleton] at h2
              exact Or.inr ⟨l, sec, name, path, sub,
                Or.inl (List.mem_cons_self _ _), hp, h2⟩
          · exact lift (Or.inr h1)
    · rw [init_scaffold] at h
      by_cases hp : path = PathBuf.new
      · rw [if_pos hp] at h; exact lift (ih src fs e h)
      · rw [if_neg hp] at h
        by_cases hex : fileExists fs (src.join path) = true
        · rw [if_pos hex] at h; exact lift (ih src fs e h)
        · rw [if_neg hex] at h
          rcases ih src _ e h with h1 | h1
          · rcases List.mem_append.mp h1 with h2 | h2
            · exact Or.inl h2
            · simp only [List.mem_singleton] at h2
              exact Or.inr ⟨l, "", name, path, sub,
                Or.inr (List.mem_cons_self _ _), hp, h2⟩
          · exact lift (Or.inr h1)
    · rw [init_scaffold] at h
      exact lift (ih src fs e h)

theorem init_scaffold_creates :
    ∀ (items : List (String × BookItem)) (src : PathBuf) (fs : List (PathBuf × String))
      (l sec name : String) (path : PathBuf) (sub : List BookItem),
      ((l, BookItem.Chapter sec name path sub) ∈ items
        ∨ (l, BookItem.Affix name path sub) ∈ items) →
      path ≠ PathBuf.new →
      fileExists (init_scaffold src items fs) (src.join path) = true := by
  intro items
  induction items with
  | nil =>
    intro src fs l sec name path sub hm _
    rcases hm with hm | hm <;> simp at hm
  | cons it rest ih =>
    intro src fs l sec name path sub hm hp
    rcases it with ⟨l0, i⟩
    have step :
        ∀ (i0 : BookItem), ((l, BookItem.Chapter sec name path sub) ∈ rest
            ∨ (l, BookItem.Affix name path sub) ∈ rest) →
          fileExists (init_scaffold src ((l0, i0) :: rest) fs) (src.join path) = true := by
      intro i0 hm1
      rcases i0 with ⟨sec0, name0, path0, sub0⟩ | ⟨name0, path0, sub0⟩ | _
      · rw [init_scaffold]
        by_cases hp0 : path0 = PathBuf.new
        · rw [if_pos hp0]; exact ih src fs l sec name path sub hm1 hp
        · rw [if_neg hp0]
          by_cases hex : fileExists fs (src.join path0) = true
          · rw [if_pos hex]; exact ih src fs l sec name path sub hm1 hp
          · rw [if_neg hex]; exact ih src _ l sec name path sub hm1 hp
      · rw [init_scaffold]
        by_cases hp0 : path0 = PathBuf.new
        · rw [if_pos hp0]; exact ih src fs l sec name path sub hm1 hp
        · rw [if_neg hp0]
          by_cases hex : fileExists fs (src.join path0) = true
          · rw [if_pos hex]; exact ih src fs l sec name path sub hm1 hp
          · rw [if_neg hex]; exact ih src _ l sec name path sub hm1 hp
      · rw [init_scaffold]
        exact ih src fs l sec name path sub hm1 hp
    have self_case :
        ∀ (i0 : BookItem), i0 = BookItem.Chapter sec name path sub ∨ i0 = BookItem.Affix name path sub →
          fileExists (init_scaffold src ((l0, i0) :: rest) fs) (src.join path) = true := by
      intro i0 hi
      rcases hi with rfl | rfl
      · rw [init_scaffold, if_neg hp]
        by_cases hex : fileExists fs (src.join path) = true
        · rw [if_pos hex]; exact fileExists_mono rest src fs _ hex
        · rw [if_neg hex]
          apply fileExists_mono
          rw [fileExists_append]
          simp
      · rw [init_scaffold, if_neg hp]
        by_cases hex : fileExists fs (src.join path) = true
        · rw [if_pos hex]; exact fileExists_mono rest src fs _ hex
        · rw [if_neg hex]
          apply fileExists_mono
          rw [fileExists_append]
          simp
    rcases hm with hm | hm
    · rcases List.mem_cons.mp hm with he | hm1
      · have : l0 = l ∧ i = BookItem.Chapter sec name path sub := by
          constructor <;> injection he.symm
        exact self_case i (Or.inl this.2)
      · exact step i (Or.inl hm1)
    · rcases List.mem_cons.mp hm with he | hm1
      · have : l0 = l ∧ i = BookItem.Affix name path sub := by
          constructor <;> injection he.symm
        exact self_case i (Or.inr this.2)
      · exact step i (Or.inr hm1)

/-- Three top-level chapters, the second with two sub-chapters (spec,
section 8, numbering scenario). -/
def bookThree : List BookItem :=
  [.Chapter "" "One" (PathBuf.from1 "one.md") [],
   .Chapter "" "Two" (PathBuf.from1 "two.md")
     [.Chapter "" "TwoOne" (PathBuf.from1 "two/one.md") [],
      .Chapter "" "TwoTwo" (PathBuf.from1 "two/two.md") []],
   .Chapter "" "Three" (PathBuf.from1 "three.md") []]

/-- A book that shares `bookThree` as content but differs in every other
field. -/
def bookAlt : MDBook :=
  ⟨PathBuf.from1 "r", PathBuf.from1 "d", PathBuf.from1 "s", "t", "a", "de", "fr",
    bookThree, some "lr"⟩

/-- A malformed outline document: line 2 is indented two levels deeper than
any open parent. -/
def badDoc : String := "- [A](a.md)\n    - [B](b.md)"

/-- C1: `MDBook::iter` borrows the content unchanged and starts every fresh
iterator with `current_index` 0 and an empty stack, so two independently
constructed iterators over the same (unmutated) content yield identical
sequences. -/
theorem c1_iter_restartable :
    (∀ b : MDBook, b.iter.items = b.content ∧ b.iter.current_index = 0 ∧ b.iter.stack = []) ∧
    (∀ b1 b2 : MDBook, b1.content = b2.content → runItems b1.iter = runItems b2.iter) := by
  constructor
  · intro b
    exact ⟨rfl, rfl, rfl⟩
  · intro b1 b2 h
    unfold MDBook.iter
    rw [h]

/-- Witness for C1: two independently constructed iterators over books that
share the same content but differ in every other field yield the same
sequence. -/
theorem c1_iter_restartable_witness :
    runItems (mkBook bookThree).iter = runItems bookAlt.iter :=
  c1_iter_restartable.2 (mkBook bookThree) bookAlt rfl

/-- C2: for three top-level Chapters with two sub-chapters under the second,
the iterator yields labels "1", "2", "2.1", "2.2", "3" in that order; in
general the label of a Chapter in a numbered context is the parent label
dot its 1-based position among numbered siblings (just the position at
depth 0, where the parent label is empty). -/
theorem c2_numbering_labels :
    ((runItems (mkBook bookThree).iter).map Prod.fst = ["1", "2", "2.1", "2.2", "3"]) ∧
    (∀ b : MDBook, runItems b.iter = flattenList true "" 0 b.content) ∧
    (∀ (parent : String) (counter : Nat) (sec name : String) (path : PathBuf)
      (sub rest : List BookItem),
      (flattenList true parent counter (.Chapter sec name path sub :: rest)).head?
        = some (mkLabel parent (counter + 1), .Chapter sec name path sub)) ∧
    (∀ n : Nat, mkLabel "" n = toString n) ∧
    (∀ (parent : String) (n : Nat), parent ≠ "" →
      mkLabel parent n = parent ++ "." ++ toString n) := by
  refine ⟨rfl, runItems_iter_eq, ?_, ?_, ?_⟩
  · intro parent counter sec name path sub rest
    rw [flattenList]
    simp
  · intro n
    simp [mkLabel]
  · intro parent n h
    simp [mkLabel, h]

/-- Witness for C2 at a concrete nonempty parent label. -/
theorem c2_numbering_labels_witness :
    mkLabel "2" 1 = "2" ++ "." ++ toString 1 :=
  c2_numbering_labels.2.2.2.2 "2" 1 (by decide)

/-- C4: every entry emitted in an un-numbered (Affix-inherited) context has
an empty label, even a Chapter-shaped one; flattening an Affix descends into
its subtree with numbering off. -/
theorem c4_affix_exclusion :
    (∀ (parent : String) (counter : Nat) (items : List BookItem),
      ∀ p ∈ flattenList false parent counter items, p.1 = "") ∧
    (∀ (numbered : Bool) (parent : String) (counter : Nat) (name : String)
      (path : PathBuf) (sub rest : List BookItem),
      flattenList numbered parent counter (.Affix name path sub :: rest)
        = ("", .Affix name path sub)
          :: (flattenList false "" 0 sub ++ flattenList numbered parent counter rest)) ∧
    (∀ b : MDBook, runItems b.iter = flattenList true "" 0 b.content) := by
  refine ⟨?_, ?_, runItems_iter_eq⟩
  · intro parent counter items
    exact flattenList_false_labels false parent counter items rfl
  · intro numbered parent counter name path sub rest
    rw [flattenList]

/-- Witness for C4: a Chapter-shaped node nested under an Affix yields an
empty label. -/
theorem c4_affix_exclusion_witness :
    ("", BookItem.Chapter "" "X" PathBuf.new []).1 = "" :=
  c4_affix_exclusion.1 "" 0 [.Affix "A" PathBuf.new [.Chapter "" "X" PathBuf.new []]]
    ("", .Chapter "" "X" PathBuf.new [])
    (by rw [flattenList]; simp [flattenList])

/-- C5: a Spacer yields with an empty label and leaves the numbered-sibling
counter unchanged, so inserting one between sibling Chapters does not change
any later Chapter label (chapter 2 stays "2"). -/
theorem c5_spacer_transparency :
    (∀ (numbered : Bool) (parent : String) (counter : Nat) (rest : List BookItem),
      flattenList numbered parent counter (.Spacer :: rest)
        = ("", .Spacer) :: flattenList numbered parent counter rest) ∧
    (∀ (parent : String) (counter : Nat) (xs ys : List BookItem),
      flattenList true parent counter (xs ++ .Spacer :: ys)
        = flattenList true parent counter xs
          ++ ("", .Spacer) :: flattenList true parent (counter + chapCount xs) ys ∧
      flattenList true parent counter (xs ++ ys)
        = flattenList true parent counter xs
          ++ flattenList true parent (counter + chapCount xs) ys) ∧
    (∀ b : MDBook, runItems b.iter = flattenList true "" 0 b.content) ∧
    ((runItems (mkBook
        [.Chapter "" "X" (PathBuf.from1 "x.md") [], .Spacer,
         .Chapter "" "Y" (PathBuf.from1 "y.md") []]).iter).map Prod.fst
      = ["1", "", "2"]) := by
  refine ⟨?_, ?_, runItems_iter_eq, rfl⟩
  · intro numbered parent counter rest
    rw [flattenList]
  · intro parent counter xs ys
    constructor
    · rw [flattenList_append_true]
      rw [flattenList]
    · exact flattenList_append_true xs parent counter ys

/-- C3: the items emitted by the flattening iterator are exactly the
pre-order traversal of the tree; consequently, for a document the parser
accepts, the path values yielded over the parsed tree equal the document's
link targets top to bottom. -/
theorem c3_preorder_roundtrip :
    (∀ b : MDBook, (runItems b.iter).map Prod.snd = preorderList b.content) ∧
    (∀ (doc : String) (items : List BookItem) (b : MDBook),
      construct_bookitems doc = .ok items → b.content = items →
      (runItems b.iter).filterMap (fun q => itemPath q.2)
        = (linkTargets doc).map PathBuf.from1) := by
  have hmap : ∀ b : MDBook, (runItems b.iter).map Prod.snd = preorderList b.content := by
    intro b
    rw [runItems_iter_eq]
    exact flattenList_map_snd true "" 0 b.content
  refine ⟨hmap, ?_⟩
  intro doc items b hparse hcontent
  have h1 : (runItems b.iter).filterMap (fun q => itemPath q.2) = pathsList b.content := by
    have h0 := List.filterMap_map Prod.snd itemPath (runItems b.iter)
    rw [hmap b] at h0
    exact h0.symm
  unfold construct_bookitems at hparse
  rcases htok : tokenizeLines 1 (splitCL '\n' doc.data) with e | toks
  · rw [htok] at hparse
    exact absurd hparse (by simp)
  · rw [htok] at hparse
    have h2 := buildItems_paths toks ⟨0, "", [], [], false⟩ items hparse
    have h3 : pathsList (closeFrames ([] : List BFrame) ([] : List BookItem)) = [] := by
      simp [closeFrames, pathsList, preorderList]
    have h4 := tokenizeLines_targets _ 1 toks htok
    rw [h1, hcontent, h2]
    simp only [h3, List.nil_append]
    rw [h4]
    rfl

/-- Witness for C3: the spec's concrete scenario document round-trips. -/
theorem c3_preorder_roundtrip_witness :
    (runItems (mkBook specItems).iter).filterMap (fun q => itemPath q.2)
      = (linkTargets specDoc).map PathBuf.from1 :=
  c3_preorder_roundtrip.2 specDoc specItems (mkBook specItems) (by rfl) rfl

/-- C6: a parse failure leaves `MDBook::content` (indeed the whole receiver)
exactly as it was — no partial tree — and a structurally malformed document
fails with `Malformed` carrying the offending 1-based line number and raw
text. -/
theorem c6_parse_error_atomicity :
    (∀ (b : MDBook) (text : String) (e : ParseError),
      construct_bookitems text = .error e →
      b.parse_summary text = (.error e, b)) ∧
    (construct_bookitems badDoc = .error (.Malformed 2 "    - [B](b.md)")) := by
  constructor
  · intro b text e h
    unfold MDBook.parse_summary
    rw [h]
  · rfl

/-- Witness for C6: parsing the malformed document leaves a concrete book
untouched and surfaces the error. -/
theorem c6_parse_error_atomicity_witness :
    (mkBook bookThree).parse_summary badDoc
      = (.error (.Malformed 2 "    - [B](b.md)"), mkBook bookThree) :=
  c6_parse_error_atomicity.1 (mkBook bookThree) badDoc
    (.Malformed 2 "    - [B](b.md)") (by rfl)

/-- C8: parsing is deterministic — equal texts parse to equal results (both
fail identically or both yield structurally equal trees) — and the spec's
concrete scenario parses to its required tree. -/
theorem c8_reparse_deterministic :
    (∀ t1 t2 : String, t1 = t2 → construct_bookitems t1 = construct_bookitems t2) ∧
    (construct_bookitems specDoc = .ok specItems) := by
  constructor
  · intro t1 t2 h
    rw [h]
  · rfl

/-- Witness for C8: re-parsing the scenario document gives the same tree. -/
theorem c8_reparse_deterministic_witness :
    construct_bookitems specDoc = construct_bookitems specDoc :=
  c8_reparse_deterministic.1 specDoc specDoc rfl

/-- C9: the iterator is finite — it yields exactly one entry per tree node,
extra fuel changes nothing — and with an empty traversal stack it is
exhausted precisely when the cursor has passed the last top-level item. -/
theorem c9_iterator_termination :
    (∀ b : MDBook, (runItems b.iter).length = listSize b.content) ∧
    (∀ (n : Nat) (b : MDBook), runFuel (listSize b.content + n) b.iter = runItems b.iter) ∧
    (∀ s : BookItems, s.stack = [] →
      (s.next = none ↔ s.items.length ≤ s.current_index)) := by
  refine ⟨?_, ?_, ?_⟩
  · intro b
    rw [runItems_iter_eq, flattenList_length]
  · intro n b
    apply runFuel_irrel
    have h : (MDBook.iter b).measureBI = listSize b.content := by
      simp [MDBook.iter, BookItems.measureBI, BookItems.curFrame, frameRemaining,
        stackRemaining]
    omega
  · intro s hs
    unfold BookItems.next
    rw [hs, nextAux_nil_eq]
    have hcf1 : s.curFrame.items = s.items := rfl
    have hcf2 : s.curFrame.index = s.current_index := rfl
    rw [hcf1, hcf2]
    rcases hd : s.items.drop s.current_index with _ | ⟨c, tl⟩
    · constructor
      · intro _
        exact List.drop_eq_nil_iff.mp hd
      · intro _
        rfl
    · constructor
      · intro h
        exact absurd h (by simp)
      · intro h
        have h5 : s.items.drop s.current_index = [] := List.drop_eq_nil_iff.mpr h
        rw [hd] at h5
        exact absurd h5 (by simp)

/-- Witness for C9: a fresh iterator over an empty content sequence is
exhausted immediately. -/
theorem c9_iterator_termination_witness :
    (BookItems.mk [] 0 0 "" true []).next = none ↔ ([] : List BookItem).length ≤ 0 :=
  c9_iterator_termination.2.2 ⟨[], 0, 0, "", true, []⟩ rfl

/-- C7: in the scaffolding pass of `init()`, Spacers are skipped, entries
with an empty path are never written (every file the pass adds comes from a
non-empty-path Chapter/Affix), and every Chapter/Affix with a non-empty path
ends up with its file `src.join(path)` present, created as `# name` when it
did not exist. -/
theorem c7_init_scaffolding :
    (∀ (src : PathBuf) (l : String) (rest : List (String × BookItem))
      (fs : List (PathBuf × String)),
      init_scaffold src ((l, .Spacer) :: rest) fs = init_scaffold src rest fs) ∧
    (∀ (src : PathBuf) (l sec name : String) (path : PathBuf) (sub : List BookItem)
      (rest : List (String × BookItem)) (fs : List (PathBuf × String)),
      init_scaffold src ((l, .Chapter sec name path sub) :: rest) fs
        = (if path = PathBuf.new then init_scaffold src rest fs
           else if fileExists fs (src.join path) then init_scaffold src rest fs
           else init_scaffold src rest (fs ++ [(src.join path, "# " ++ name ++ "\n")])) ∧
      init_scaffold src ((l, .Affix name path sub) :: rest) fs
        = (if path = PathBuf.new then init_scaffold src rest fs
           else if fileExists fs (src.join path) then init_scaffold src rest fs
           else init_scaffold src rest (fs ++ [(src.join path, "# " ++ name ++ "\n")]))) ∧
    (∀ (items : List (String × BookItem)) (src : PathBuf) (fs : List (PathBuf × String))
      (e : PathBuf × String), e ∈ init_scaffold src items fs →
      e ∈ fs ∨ ∃ l sec name path sub,
        ((l, BookItem.Chapter sec name path sub) ∈ items
          ∨ (l, BookItem.Affix name path sub) ∈ items)
        ∧ path ≠ PathBuf.new ∧ e = (src.join path, "# " ++ name ++ "\n")) ∧
    (∀ (items : List (String × BookItem)) (src : PathBuf) (fs : List (PathBuf × String))
      (l sec name : String) (path : PathBuf) (sub : List BookItem),
      ((l, BookItem.Chapter sec name path sub) ∈ items
        ∨ (l, BookItem.Affix name path sub) ∈ items) →
      path ≠ PathBuf.new →
      fileExists (init_scaffold src items fs) (src.join path) = true) := by
  refine ⟨?_, ?_, init_scaffold_provenance, init_scaffold_creates⟩
  · intro src l rest fs
    rfl
  · intro src l sec name path sub rest fs
    exact ⟨rfl, rfl⟩

/-- Witness for C7: a single chapter with a non-empty path gets its file
created on an empty file system. -/
theorem c7_init_scaffolding_witness :
    fileExists
      (init_scaffold (PathBuf.from1 "src")
        [("1", BookItem.Chapter "" "One" (PathBuf.from1 "one.md") [])] [])
      ((PathBuf.from1 "src").join (PathBuf.from1 "one.md")) = true :=
  c7_init_scaffolding.2.2.2
    [("1", BookItem.Chapter "" "One" (PathBuf.from1 "one.md") [])]
    (PathBuf.from1 "src") [] "1" "" "One" (PathBuf.from1 "one.md") []
    (Or.inl (by simp)) (by decide)

/-- C10: `set_src`/`set_dest` store the argument unchanged when it is
absolute and `root.join` of it when relative; the matching getter returns
exactly the stored path; no other modelled field changes. -/
theorem c10_setters (b : MDBook) (p : PathBuf) :
    ((b.set_src p).src = (if p.is_absolute then p else b.root.join p)
      ∧ (b.set_src p).get_src = (b.set_src p).src
      ∧ (b.set_src p).root = b.root ∧ (b.set_src p).dest = b.dest
      ∧ (b.set_src p).title = b.title ∧ (b.set_src p).author = b.author
      ∧ (b.set_src p).description = b.description
      ∧ (b.set_src p).default_language = b.default_language
      ∧ (b.set_src p).content = b.content ∧ (b.set_src p).livereload = b.livereload) ∧
    ((b.set_dest p).dest = (if p.is_absolute then p else b.root.join p)
      ∧ (b.set_dest p).get_dest = (b.set_dest p).dest
      ∧ (b.set_dest p).root = b.root ∧ (b.set_dest p).src = b.src
      ∧ (b.set_dest p).title = b.title ∧ (b.set_dest p).author = b.author
      ∧ (b.set_dest p).description = b.description
      ∧ (b.set_dest p).default_language = b.default_language
      ∧ (b.set_dest p).content = b.content ∧ (b.set_dest p).livereload = b.livereload) := by
  by_cases h : p.is_absolute = true <;>
    simp [MDBook.set_src, MDBook.set_dest, MDBook.get_src, MDBook.get_dest, h]
